import Mathlib

/-!
Verification of `moshi_mlx/local.py`: a websocket audio gateway bridging a
browser client and a speech-generation engine through FIFO channels, with a
binary wire protocol, a warmup priming sequence, and a single-session lock.

Each definition below is a shallow embedding of a function or loop of
`local.py`; theorems check the specified properties against them.
-/

namespace Moshi

/-- `SAMPLE_RATE = 24000` (local.py line 32). -/
def SAMPLE_RATE : Nat := 24000

/-- `FRAME_SIZE = 1920` (local.py line 33). -/
def FRAME_SIZE : Nat := 1920

/-- `CHANNELS = 1` (local.py line 34). -/
def CHANNELS : Nat := 1

/-! ## PCM assembly (`opus_loop`, local.py lines 244-261)

`opus_loop` polls `opus_reader.read_pcm()`, concatenates the result onto
`all_pcm_data`, and while at least `FRAME_SIZE` samples are accumulated,
slices off exactly `FRAME_SIZE` samples and pushes them on `input_queue`.
Samples are kept abstract (`α`). -/

/-- The `while all_pcm_data.shape[-1] >= FRAME_SIZE` loop of `opus_loop`:
repeatedly take the first `FRAME_SIZE` samples as a chunk, keep the rest.
Returns (chunks pushed onto `input_queue`, remaining buffer). -/
def sliceFrames {α : Type} (buf : List α) : List (List α) × List α :=
  if h : FRAME_SIZE ≤ buf.length then
    (buf.take FRAME_SIZE :: (sliceFrames (buf.drop FRAME_SIZE)).1,
     (sliceFrames (buf.drop FRAME_SIZE)).2)
  else
    ([], buf)
  termination_by buf.length
  decreasing_by
    simp only [List.length_drop]
    have hf : 0 < FRAME_SIZE := by decide
    omega

/-- One iteration of the `opus_loop` body after `read_pcm` returned `pcm`:
if `pcm` is empty, `continue`; otherwise concatenate onto the accumulated
buffer (`None` meaning no buffer yet) and run the slicing loop.
Returns (new accumulated buffer, chunks pushed onto `input_queue`). -/
def opusPollStep {α : Type} (acc : Option (List α)) (pcm : List α) :
    Option (List α) × List (List α) :=
  if pcm.length = 0 then (acc, [])
  else
    match acc with
    | none => (some (sliceFrames pcm).2, (sliceFrames pcm).1)
    | some b => (some (sliceFrames (b ++ pcm)).2, (sliceFrames (b ++ pcm)).1)

/-- The fold of `opusPollStep` over successive `read_pcm` results, carrying
the accumulated buffer and the list of chunks pushed so far. -/
def opusFold {α : Type} (st : Option (List α) × List (List α))
    (pcms : List (List α)) : Option (List α) × List (List α) :=
  pcms.foldl
    (fun st pcm =>
      ((opusPollStep st.1 pcm).1, st.2 ++ (opusPollStep st.1 pcm).2))
    st

/-- Running `opus_loop` over a whole stream of `read_pcm` results, collecting
every chunk pushed onto `input_queue` in order. Initially `all_pcm_data` is
`None` and nothing has been pushed. -/
def opusRun {α : Type} (pcms : List (List α)) : Option (List α) × List (List α) :=
  opusFold (none, []) pcms

/-- Contents of the accumulated buffer (`None` = empty). -/
def accList {α : Type} (acc : Option (List α)) : List α :=
  match acc with
  | none => []
  | some b => b

theorem sliceFrames_chunk_len {α : Type} (buf : List α) :
    ∀ c ∈ (sliceFrames buf).1, c.length = FRAME_SIZE := by
  induction buf using sliceFrames.induct with
  | case1 buf h ih =>
    intro c hc
    rw [sliceFrames] at hc
    simp only [dif_pos h, List.mem_cons] at hc
    rcases hc with hc | hc
    · subst hc
      simpa [List.length_take] using h
    · exact ih c hc
  | case2 buf h =>
    intro c hc
    rw [sliceFrames] at hc
    simp [dif_neg h] at hc

theorem sliceFrames_flatten {α : Type} (buf : List α) :
    (sliceFrames buf).1.flatten ++ (sliceFrames buf).2 = buf := by
  induction buf using sliceFrames.induct with
  | case1 buf h ih =>
    rw [sliceFrames]
    simp only [dif_pos h, List.flatten_cons, List.append_assoc]
    rw [ih]
    exact List.take_append_drop FRAME_SIZE buf
  | case2 buf h =>
    rw [sliceFrames]
    simp [dif_neg h]

theorem sliceFrames_rem_lt {α : Type} (buf : List α) :
    (sliceFrames buf).2.length < FRAME_SIZE := by
  induction buf using sliceFrames.induct with
  | case1 buf h ih =>
    rw [sliceFrames]
    simpa only [dif_pos h] using ih
  | case2 buf h =>
    rw [sliceFrames]
    simp only [dif_neg h]
    omega

theorem opusPollStep_chunk_len {α : Type} (acc : Option (List α)) (pcm : List α) :
    ∀ c ∈ (opusPollStep acc pcm).2, c.length = FRAME_SIZE := by
  unfold opusPollStep
  by_cases h : pcm.length = 0
  · simp [h]
  · cases acc <;> simp only [if_neg h] <;> exact sliceFrames_chunk_len _

theorem opusPollStep_conserve {α : Type} (acc : Option (List α)) (pcm : List α) :
    (opusPollStep acc pcm).2.flatten ++ accList (opusPollStep acc pcm).1
      = accList acc ++ pcm := by
  unfold opusPollStep
  by_cases h : pcm.length = 0
  · have hp : pcm = [] := List.length_eq_zero.mp h
    subst hp
    simp [accList]
  · cases acc with
    | none => simpa [if_neg h, accList] using sliceFrames_flatten pcm
    | some b => simpa [if_neg h, accList] using sliceFrames_flatten (b ++ pcm)

theorem opusPollStep_rem_lt {α : Type} (acc : Option (List α)) (pcm : List α)
    (hacc : (accList acc).length < FRAME_SIZE) :
    (accList (opusPollStep acc pcm).1).length < FRAME_SIZE := by
  unfold opusPollStep
  by_cases h : pcm.length = 0
  · simpa [h] using hacc
  · cases acc <;> simpa [if_neg h, accList] using sliceFrames_rem_lt _

theorem opusFold_props {α : Type} (pcms : List (List α)) :
    ∀ (st : Option (List α) × List (List α)),
      (∀ c ∈ st.2, c.length = FRAME_SIZE) →
      (accList st.1).length < FRAME_SIZE →
      (∀ c ∈ (opusFold st pcms).2, c.length = FRAME_SIZE) ∧
      (opusFold st pcms).2.flatten ++ accList (opusFold st pcms).1
        = st.2.flatten ++ accList st.1 ++ pcms.flatten ∧
      (accList (opusFold st pcms).1).length < FRAME_SIZE := by
  induction pcms with
  | nil =>
    intro st h1 h2
    exact ⟨h1, by simp [opusFold], h2⟩
  | cons pcm rest ih =>
    intro st h1 h2
    have step1 : ∀ c ∈ st.2 ++ (opusPollStep st.1 pcm).2, c.length = FRAME_SIZE := by
      intro c hc
      rcases List.mem_append.mp hc with hc | hc
      · exact h1 c hc
      · exact opusPollStep_chunk_len st.1 pcm c hc
    have step2 := opusPollStep_rem_lt st.1 pcm h2
    have hrec := ih ((opusPollStep st.1 pcm).1, st.2 ++ (opusPollStep st.1 pcm).2)
      step1 step2
    have hstep : opusFold st (pcm :: rest)
        = opusFold ((opusPollStep st.1 pcm).1, st.2 ++ (opusPollStep st.1 pcm).2) rest := by
      simp [opusFold]
    refine ⟨by rw [hstep]; exact hrec.1, ?_, by rw [hstep]; exact hrec.2.2⟩
    rw [hstep]
    have hj := hrec.2.1
    have hcons := opusPollStep_conserve st.1 pcm
    rw [hj]
    simp only [List.flatten_append, List.flatten_cons, List.append_assoc]
    congr 1
    rw [← List.append_assoc, hcons, List.append_assoc]

/-- **C2**: for every stream of decoded PCM chunks of arbitrary lengths from
the Opus reader, every buffer `opus_loop` pushes onto the PCM-in queue has
length exactly `FRAME_SIZE = 1920`; the trailing remainder (always shorter
than 1920) is retained in the accumulation buffer, so chunks-plus-remainder
equals the whole input stream: nothing is dropped or zero-padded. -/
theorem opus_loop_framing {α : Type} (pcms : List (List α)) :
    (∀ c ∈ (opusRun pcms).2, c.length = FRAME_SIZE) ∧
    (opusRun pcms).2.flatten ++ accList (opusRun pcms).1 = pcms.flatten ∧
    (accList (opusRun pcms).1).length < FRAME_SIZE := by
  have h := opusFold_props pcms (none, []) (by simp)
    (by simp [accList, FRAME_SIZE])
  simpa [opusRun, accList] using h

/-! ## Wire protocol framing (`send_loop` line 270, `recv_loop` lines 231-237)

Outbound: `send_loop` sends `b"\x01" + msg`. Inbound: `recv_loop` checks
`len(message) == 0`, then reads `kind = message[0]` and
`payload = message[1:]`. Bytes are modelled as `Nat`. -/

/-- `b"\x01" + msg` (local.py line 270): the outbound audio frame built by
`send_loop`. -/
def buildAudioFrame (p : List Nat) : List Nat := 1 :: p

/-- The inbound parse of `recv_loop` (local.py lines 231-236): an empty
message carries no kind byte (`None`); otherwise the leading byte is the
kind and the rest is the payload. -/
def parseFrame (m : List Nat) : Option (Nat × List Nat) :=
  match m with
  | [] => none
  | k :: rest => some (k, rest)

/-- **C6**: for every byte payload `p`, building a wire frame as `0x01`
followed by `p` and parsing it back yields kind `1` (audio) and a payload
equal to `p` byte-for-byte. -/
theorem frame_round_trip (p : List Nat) :
    parseFrame (buildAudioFrame p) = some (1, p) := rfl

/-! ## Inbound reader (`recv_loop`, local.py lines 215-242)

One websocket message is either an ERROR event, a CLOSED event, a non-binary
message, or a binary message with a byte payload. The handler either breaks
out of the loop (connection termination) or continues; the `finally` block
sets the shared `close` flag when the loop ends. -/

/-- A websocket message as dispatched by `recv_loop`. -/
inductive WsMsg : Type
  | errorEvent : WsMsg
  | closedEvent : WsMsg
  | nonBinary : WsMsg
  | binary : List Nat → WsMsg

/-- Log levels used by `log` (local.py lines 41-50). -/
inductive LogLevel : Type
  | warning : LogLevel
  | info : LogLevel
  | errorLvl : LogLevel

/-- Session state touched by `recv_loop`: the shared `close` flag and the
bytes fed so far to `opus_reader.append_bytes`. -/
structure RecvState : Type where
  close : Bool
  opusBytes : List Nat
deriving DecidableEq, Repr

/-- What the body of `recv_loop` does with one message: whether it `break`s
out of the `async for` loop, which log lines it emits, and the new state.
`none` would mean the handler crashed indexing `message[0]`; the length
guard (line 231) is checked before the index (line 234), exactly as in the
source. -/
def recvStep (s : RecvState) (m : WsMsg) :
    Option (RecvState × List LogLevel × Bool) :=
  match m with
  | WsMsg.errorEvent => some (s, [LogLevel.errorLvl], true)
  | WsMsg.closedEvent => some (s, [], true)
  | WsMsg.nonBinary => some (s, [LogLevel.errorLvl], false)
  | WsMsg.binary data =>
    if data.length = 0 then
      some (s, [LogLevel.warning], false)
    else
      match data.head? with
      | none => none
      | some kind =>
        if kind = 1 then
          some ({ s with opusBytes := s.opusBytes ++ data.tail }, [], false)
        else
          some (s, [LogLevel.warning], false)

/-- The whole `recv_loop`: process messages until one breaks the loop or the
stream ends, then run the `finally` block which sets `close := true`
(local.py lines 240-242). Returns the final state and all logs. -/
def recvLoop (s : RecvState) : List WsMsg → RecvState × List LogLevel
  | [] => ({ s with close := true }, [])
  | m :: ms =>
    match recvStep s m with
    | none => (s, [])
    | some (s', logs, brk) =>
      if brk then ({ s' with close := true }, logs)
      else
        ((recvLoop s' ms).1, logs ++ (recvLoop s' ms).2)

/-- A message `recv_loop` treats as a protocol violation: non-binary, or
binary whose leading kind byte is not `1`. -/
def isProtocolViolation : WsMsg → Bool
  | WsMsg.nonBinary => true
  | WsMsg.binary [] => false
  | WsMsg.binary (k :: _) => k ≠ 1
  | _ => false

/-- **C7**: a non-binary message, or a binary message whose kind byte is not
`1`, is logged and dropped: the handler does not break the loop, the `close`
flag is not set, and no bytes are fed to the Opus decoder; only ERROR and
CLOSED events break the loop (whereupon `close` is set). -/
theorem recv_loop_protocol_violation (s : RecvState) (m : WsMsg)
    (hm : isProtocolViolation m = true) :
    (recvStep s m = some (s, [LogLevel.errorLvl], false) ∨
     recvStep s m = some (s, [LogLevel.warning], false)) ∧
    (∀ (s' : RecvState) (m' : WsMsg) (st : RecvState) (logs : List LogLevel),
      recvStep s' m' = some (st, logs, true) →
      m' = WsMsg.errorEvent ∨ m' = WsMsg.closedEvent) := by
  constructor
  · match m with
    | WsMsg.errorEvent => simp [isProtocolViolation] at hm
    | WsMsg.closedEvent => simp [isProtocolViolation] at hm
    | WsMsg.nonBinary => exact Or.inl rfl
    | WsMsg.binary [] => simp [isProtocolViolation] at hm
    | WsMsg.binary (k :: rest) =>
      have hk : k ≠ 1 := by simpa [isProtocolViolation] using hm
      right
      simp [recvStep, hk]
  · intro s' m' st logs hstep
    match m' with
    | WsMsg.errorEvent => exact Or.inl rfl
    | WsMsg.closedEvent => exact Or.inr rfl
    | WsMsg.nonBinary => simp [recvStep] at hstep
    | WsMsg.binary [] => simp [recvStep] at hstep
    | WsMsg.binary (k :: rest) =>
      by_cases hk : k = 1 <;> simp [recvStep, hk] at hstep

/-- Witness for `recv_loop_protocol_violation` at a concrete bad frame. -/
theorem recv_loop_protocol_violation_witness :
    isProtocolViolation (WsMsg.binary [7, 7]) = true ∧
    ((recvStep ⟨false, []⟩ (WsMsg.binary [7, 7])
        = some (⟨false, []⟩, [LogLevel.errorLvl], false) ∨
      recvStep ⟨false, []⟩ (WsMsg.binary [7, 7])
        = some (⟨false, []⟩, [LogLevel.warning], false)) ∧
     (∀ (s' : RecvState) (m' : WsMsg) (st : RecvState) (logs : List LogLevel),
       recvStep s' m' = some (st, logs, true) →
       m' = WsMsg.errorEvent ∨ m' = WsMsg.closedEvent)) :=
  ⟨by decide,
    recv_loop_protocol_violation ⟨false, []⟩ (WsMsg.binary [7, 7]) (by decide)⟩

/-- **C9**: an empty binary frame is handled safely: the length guard fires
before the kind-byte index, so the handler never crashes (`recvStep` is
`some` on every message), and on an empty frame it logs a warning, drops the
frame, keeps the session open and leaves the state unchanged. -/
theorem recv_loop_empty_binary (s : RecvState) :
    recvStep s (WsMsg.binary []) = some (s, [LogLevel.warning], false) ∧
    ∀ m : WsMsg, (recvStep s m).isSome := by
  refine ⟨rfl, ?_⟩
  intro m
  match m with
  | WsMsg.errorEvent => rfl
  | WsMsg.closedEvent => rfl
  | WsMsg.nonBinary => rfl
  | WsMsg.binary [] => rfl
  | WsMsg.binary (k :: rest) =>
    by_cases hk : k = 1 <;> simp [recvStep, hk]

/-! ## Inference engine iteration (`model_server`, local.py lines 146-158)

Each loop iteration dequeues one token frame, runs one generation step
yielding exactly one text token id (`text_token[0].item()`) and zero-or-one
audio token frame (`gen.last_audio_tokens()`), logs the text piece unless
the id is 0 or 3, and pushes the audio frame (if any) to `server_to_client`.
The opaque `gen.step` result is the iteration's input here. -/

/-- The observable effect of one `model_server` iteration, given the step's
text token id, its optional audio token frame, and the text tokenizer's
`id_to_piece` map: the log lines emitted and the frames pushed onto
`server_to_client`. -/
def serverIter (textToken : Nat) (audioTokens : Option (List Nat))
    (piece : Nat → String) : List String × List (List Nat) :=
  ( if textToken = 0 ∨ textToken = 3 then [] else ["token " ++ piece textToken],
    match audioTokens with
    | none => []
    | some a => [a] )

/-- **C8**: per iteration there is exactly one text token id; ids 0 and 3
are suppressed (no log line), any other id is surfaced as exactly one log
line; and the frames pushed to the engine-to-client channel never depend on
the text token id — the token is log-only, never a control signal. -/
theorem model_server_text_token (t : Nat) (a : Option (List Nat))
    (piece : Nat → String) :
    ((t = 0 ∨ t = 3) → (serverIter t a piece).1 = []) ∧
    (¬(t = 0 ∨ t = 3) → (serverIter t a piece).1 = ["token " ++ piece t]) ∧
    (∀ t' : Nat, (serverIter t a piece).2 = (serverIter t' a piece).2) := by
  refine ⟨fun h => ?_, fun h => ?_, fun t' => ?_⟩
  · simp [serverIter, h]
  · simp [serverIter, h]
  · cases a <;> rfl

/-- Witness for `model_server_text_token` at a concrete non-reserved id. -/
theorem model_server_text_token_witness :
    ((5 = 0 ∨ 5 = 3) → (serverIter 5 (some [9]) toString).1 = []) ∧
    (¬(5 = 0 ∨ 5 = 3) →
      (serverIter 5 (some [9]) toString).1 = ["token " ++ toString 5]) ∧
    (∀ t' : Nat,
      (serverIter 5 (some [9]) toString).2 = (serverIter t' (some [9]) toString).2) :=
  model_server_text_token 5 (some [9]) toString

/-! ## Warmup (`full_warmup`, local.py lines 76-94)

`full_warmup` runs `for i in range(4)`: encode a zero-filled 1920-sample
frame, poll `get_encoded()` after a 10 ms sleep until it returns a frame,
push it on `client_to_server`; when `i > 0`, additionally block on
`server_to_client.get()`, feed the frame to `decode`, and poll
`get_decoded()` after a 10 ms sleep until it yields PCM. The trace of
primitive actions is parameterized by how many polls fail before the codec
is ready (`pe i` for encoding, `pd i` for decoding in iteration `i`). -/

/-- One primitive action of `full_warmup`. -/
inductive WAct : Type
  | encodePcm : List Int → WAct
  | sleepMs : Nat → WAct
  | pollEncoded : Bool → WAct
  | putC2S : WAct
  | getS2C : WAct
  | decodeTokens : WAct
  | pollDecoded : Bool → WAct
deriving DecidableEq, Repr

/-- `pcm_data = np.array([0.0] * 1920)` (line 78): 1920 zero samples. -/
def zeroFrame : List Int := List.replicate 1920 0

/-- A `while True: time.sleep(0.01); data = poll(); if data is not None:
break` loop with `fails` unsuccessful polls before the successful one. -/
def pollLoop (fails : Nat) (mk : Bool → WAct) : List WAct :=
  match fails with
  | 0 => [WAct.sleepMs 10, mk true]
  | n + 1 => WAct.sleepMs 10 :: mk false :: pollLoop n mk

/-- The body of `full_warmup` for loop index `i` (lines 78-94): encode the
zero frame, poll `get_encoded`, push to `client_to_server`; `continue` when
`i == 0`, otherwise get one frame from `server_to_client`, decode it, and
poll `get_decoded`. -/
def warmupIterTrace (i a b : Nat) : List WAct :=
  WAct.encodePcm zeroFrame :: (pollLoop a WAct.pollEncoded ++ [WAct.putC2S])
    ++ (if i = 0 then []
        else WAct.getS2C :: WAct.decodeTokens :: pollLoop b WAct.pollDecoded)

/-- The whole of `full_warmup`: `for i in range(4)` over the iteration
bodies. -/
def fullWarmupTrace (pe pd : Nat → Nat) : List WAct :=
  ((List.range 4).map (fun i => warmupIterTrace i (pe i) (pd i))).flatten

/-- Is this action an `encode` call? -/
def isEncodeAct : WAct → Bool
  | WAct.encodePcm _ => true
  | _ => false

/-- Is this action a blocking `server_to_client.get()`? -/
def isGetS2CAct : WAct → Bool
  | WAct.getS2C => true
  | _ => false

/-- Is this action a `client_to_server.put_nowait`? -/
def isPutC2SAct : WAct → Bool
  | WAct.putC2S => true
  | _ => false

/-- The results of the `get_encoded` polls, in order. -/
def encodedPolls (t : List WAct) : List Bool :=
  t.filterMap fun a =>
    match a with
    | WAct.pollEncoded r => some r
    | _ => none

/-- The results of the `get_decoded` polls, in order. -/
def decodedPolls (t : List WAct) : List Bool :=
  t.filterMap fun a =>
    match a with
    | WAct.pollDecoded r => some r
    | _ => none

theorem pollLoop_no_encode (fails : Nat) (mk : Bool → WAct)
    (hmk : ∀ r, mk r = WAct.pollEncoded r ∨ mk r = WAct.pollDecoded r) :
    ∀ x ∈ pollLoop fails mk, isEncodeAct x = false
      ∧ isGetS2CAct x = false ∧ isPutC2SAct x = false := by
  induction fails with
  | zero =>
    intro x hx
    simp only [pollLoop, List.mem_cons, List.not_mem_nil, or_false] at hx
    rcases hx with rfl | rfl
    · exact ⟨rfl, rfl, rfl⟩
    · rcases hmk true with h | h <;> (rw [h]; exact ⟨rfl, rfl, rfl⟩)
  | succ n ih =>
    intro x hx
    simp only [pollLoop, List.mem_cons] at hx
    rcases hx with rfl | rfl | hx
    · exact ⟨rfl, rfl, rfl⟩
    · rcases hmk false with h | h <;> (rw [h]; exact ⟨rfl, rfl, rfl⟩)
    · exact ih x hx

theorem pollLoop_encodedPolls (fails : Nat) :
    encodedPolls (pollLoop fails WAct.pollEncoded)
      = List.replicate fails false ++ [true] := by
  induction fails with
  | zero => rfl
  | succ n ih =>
    simp only [pollLoop, encodedPolls, List.filterMap_cons] at ih ⊢
    rw [ih]
    rfl

theorem pollLoop_decodedPolls (fails : Nat) :
    decodedPolls (pollLoop fails WAct.pollDecoded)
      = List.replicate fails false ++ [true] := by
  induction fails with
  | zero => rfl
  | succ n ih =>
    simp only [pollLoop, decodedPolls, List.filterMap_cons] at ih ⊢
    rw [ih]
    rfl

theorem pollLoop_no_decodedPolls (fails : Nat) :
    decodedPolls (pollLoop fails WAct.pollEncoded) = [] := by
  induction fails with
  | zero => rfl
  | succ n ih =>
    simp only [pollLoop, decodedPolls, List.filterMap_cons] at ih ⊢
    exact ih

theorem pollLoop_sleeps (fails : Nat) (mk : Bool → WAct)
    (hmk : ∀ r, mk r = WAct.pollEncoded r ∨ mk r = WAct.pollDecoded r) :
    ∀ ms, WAct.sleepMs ms ∈ pollLoop fails mk → ms = 10 := by
  induction fails with
  | zero =>
    intro ms hms
    simp only [pollLoop, List.mem_cons, List.not_mem_nil, or_false] at hms
    rcases hms with h | h
    · simpa using h
    · rcases hmk true with h2 | h2 <;> (rw [h2] at h; exact absurd h (by simp))
  | succ n ih =>
    intro ms hms
    simp only [pollLoop, List.mem_cons] at hms
    rcases hms with h | h | h
    · simpa using h
    · rcases hmk false with h2 | h2 <;> (rw [h2] at h; exact absurd h (by simp))
    · exact ih ms h

theorem pollLoop_no_encodedPolls (fails : Nat) :
    encodedPolls (pollLoop fails WAct.pollDecoded) = [] := by
  induction fails with
  | zero => rfl
  | succ n ih =>
    simp only [pollLoop, encodedPolls, List.filterMap_cons] at ih ⊢
    exact ih

theorem pollLoop_mem (fails : Nat) (mk : Bool → WAct) :
    ∀ x ∈ pollLoop fails mk, x = WAct.sleepMs 10 ∨ ∃ r, x = mk r := by
  induction fails with
  | zero =>
    intro x hx
    simp only [pollLoop, List.mem_cons, List.not_mem_nil, or_false] at hx
    rcases hx with rfl | rfl
    · exact Or.inl rfl
    · exact Or.inr ⟨true, rfl⟩
  | succ n ih =>
    intro x hx
    simp only [pollLoop, List.mem_cons] at hx
    rcases hx with rfl | rfl | hx
    · exact Or.inl rfl
    · exact Or.inr ⟨false, rfl⟩
    · exact ih x hx

theorem warmupIter_count_encode (i a b : Nat) :
    (warmupIterTrace i a b).countP isEncodeAct = 1 := by
  have he : (pollLoop a WAct.pollEncoded).countP isEncodeAct = 0 := by
    rw [List.countP_eq_zero]
    intro x hx
    rcases pollLoop_mem a WAct.pollEncoded x hx with rfl | ⟨r, rfl⟩ <;> simp [isEncodeAct]
  have hd : (pollLoop b WAct.pollDecoded).countP isEncodeAct = 0 := by
    rw [List.countP_eq_zero]
    intro x hx
    rcases pollLoop_mem b WAct.pollDecoded x hx with rfl | ⟨r, rfl⟩ <;> simp [isEncodeAct]
  by_cases hi : i = 0 <;>
    simp [warmupIterTrace, hi, List.countP_cons, List.countP_append, he, hd, isEncodeAct]

theorem warmupIter_count_get (i a b : Nat) :
    (warmupIterTrace i a b).countP isGetS2CAct = if i = 0 then 0 else 1 := by
  have he : (pollLoop a WAct.pollEncoded).countP isGetS2CAct = 0 := by
    rw [List.countP_eq_zero]
    intro x hx
    rcases pollLoop_mem a WAct.pollEncoded x hx with rfl | ⟨r, rfl⟩ <;> simp [isGetS2CAct]
  have hd : (pollLoop b WAct.pollDecoded).countP isGetS2CAct = 0 := by
    rw [List.countP_eq_zero]
    intro x hx
    rcases pollLoop_mem b WAct.pollDecoded x hx with rfl | ⟨r, rfl⟩ <;> simp [isGetS2CAct]
  by_cases hi : i = 0 <;>
    simp [warmupIterTrace, hi, List.countP_cons, List.countP_append, he, hd, isGetS2CAct]

theorem warmupIter_count_put (i a b : Nat) :
    (warmupIterTrace i a b).countP isPutC2SAct = 1 := by
  have he : (pollLoop a WAct.pollEncoded).countP isPutC2SAct = 0 := by
    rw [List.countP_eq_zero]
    intro x hx
    rcases pollLoop_mem a WAct.pollEncoded x hx with rfl | ⟨r, rfl⟩ <;> simp [isPutC2SAct]
  have hd : (pollLoop b WAct.pollDecoded).countP isPutC2SAct = 0 := by
    rw [List.countP_eq_zero]
    intro x hx
    rcases pollLoop_mem b WAct.pollDecoded x hx with rfl | ⟨r, rfl⟩ <;> simp [isPutC2SAct]
  by_cases hi : i = 0 <;>
    simp [warmupIterTrace, hi, List.countP_cons, List.countP_append, he, hd, isPutC2SAct]

theorem warmupIter_mem (i a b : Nat) :
    ∀ x ∈ warmupIterTrace i a b,
      x = WAct.encodePcm zeroFrame ∨ x = WAct.sleepMs 10
      ∨ (∃ r, x = WAct.pollEncoded r) ∨ x = WAct.putC2S ∨ x = WAct.getS2C
      ∨ x = WAct.decodeTokens ∨ (∃ r, x = WAct.pollDecoded r) := by
  intro x hx
  unfold warmupIterTrace at hx
  rw [List.mem_append, List.mem_cons, List.mem_append] at hx
  rcases hx with (rfl | hx | hx) | hx
  · exact Or.inl rfl
  · rcases pollLoop_mem a WAct.pollEncoded x hx with rfl | ⟨r, rfl⟩
    · exact Or.inr (Or.inl rfl)
    · exact Or.inr (Or.inr (Or.inl ⟨r, rfl⟩))
  · rw [List.mem_singleton] at hx
    subst hx
    exact Or.inr (Or.inr (Or.inr (Or.inl rfl)))
  · by_cases hi : i = 0
    · rw [if_pos hi] at hx
      exact absurd hx (List.not_mem_nil x)
    · rw [if_neg hi, List.mem_cons] at hx
      rcases hx with rfl | hx
      · exact Or.inr (Or.inr (Or.inr (Or.inr (Or.inl rfl))))
      · rw [List.mem_cons] at hx
        rcases hx with rfl | hx
        · exact Or.inr (Or.inr (Or.inr (Or.inr (Or.inr (Or.inl rfl)))))
        · rcases pollLoop_mem b WAct.pollDecoded x hx with rfl | ⟨r, rfl⟩
          · exact Or.inr (Or.inl rfl)
          · exact Or.inr (Or.inr (Or.inr (Or.inr (Or.inr (Or.inr ⟨r, rfl⟩)))))

theorem warmupIter_encode_zero (i a b : Nat) :
    ∀ pcm, WAct.encodePcm pcm ∈ warmupIterTrace i a b → pcm = zeroFrame := by
  intro pcm hmem
  rcases warmupIter_mem i a b _ hmem with h | h | ⟨r, h⟩ | h | h | h | ⟨r, h⟩ <;>
    first
      | simpa using h
      | simp at h

theorem warmupIter_sleeps (i a b : Nat) :
    ∀ ms, WAct.sleepMs ms ∈ warmupIterTrace i a b → ms = 10 := by
  intro ms hmem
  rcases warmupIter_mem i a b _ hmem with h | h | ⟨r, h⟩ | h | h | h | ⟨r, h⟩ <;>
    first
      | simpa using h
      | simp at h

theorem warmupIter_encodedPolls (i a b : Nat) :
    encodedPolls (warmupIterTrace i a b) = List.replicate a false ++ [true] := by
  have h1 := pollLoop_encodedPolls a
  have h2 := pollLoop_no_encodedPolls b
  simp only [encodedPolls] at h1 h2
  by_cases hi : i = 0 <;>
    simp [warmupIterTrace, encodedPolls, hi, List.filterMap_cons,
      List.filterMap_append, h1, h2]

theorem warmupIter_decodedPolls (i a b : Nat) :
    decodedPolls (warmupIterTrace i a b)
      = if i = 0 then [] else List.replicate b false ++ [true] := by
  have h1 := pollLoop_decodedPolls b
  have h2 := pollLoop_no_decodedPolls a
  simp only [decodedPolls] at h1 h2
  by_cases hi : i = 0 <;>
    simp [warmupIterTrace, decodedPolls, hi, List.filterMap_cons,
      List.filterMap_append, h1, h2]

/-- **C5**: `full_warmup` runs exactly 4 priming iterations (4 `encode`
calls, 4 pushes onto `client_to_server`); every encoded buffer is the
zero-filled 1920-sample frame; every poll sleep is the fixed 10 ms
interval; each iteration's `get_encoded` polls fail until the final
successful one; exactly iterations 1-3 (never iteration 0) block for
exactly one frame from `server_to_client` — 3 blocking gets in total — and
feed it to `decode`, polling `get_decoded` until it yields PCM. -/
theorem full_warmup_behavior (pe pd : Nat → Nat) :
    (fullWarmupTrace pe pd).countP isEncodeAct = 4 ∧
    (fullWarmupTrace pe pd).countP isPutC2SAct = 4 ∧
    (∀ pcm, WAct.encodePcm pcm ∈ fullWarmupTrace pe pd →
      pcm = List.replicate FRAME_SIZE 0 ∧ pcm.length = FRAME_SIZE) ∧
    (∀ ms, WAct.sleepMs ms ∈ fullWarmupTrace pe pd → ms = 10) ∧
    (fullWarmupTrace pe pd).countP isGetS2CAct = 3 ∧
    (∀ i a b, (warmupIterTrace i a b).countP isGetS2CAct
      = if i = 0 then 0 else 1) ∧
    (∀ i a b, encodedPolls (warmupIterTrace i a b)
      = List.replicate a false ++ [true]) ∧
    (∀ i a b, decodedPolls (warmupIterTrace i a b)
      = if i = 0 then [] else List.replicate b false ++ [true]) := by
  have hexp : fullWarmupTrace pe pd
      = warmupIterTrace 0 (pe 0) (pd 0) ++ (warmupIterTrace 1 (pe 1) (pd 1)
        ++ (warmupIterTrace 2 (pe 2) (pd 2)
        ++ (warmupIterTrace 3 (pe 3) (pd 3) ++ []))) := rfl
  refine ⟨?_, ?_, ?_, ?_, ?_, warmupIter_count_get, warmupIter_encodedPolls,
    warmupIter_decodedPolls⟩
  · rw [hexp]
    simp [List.countP_append, warmupIter_count_encode]
  · rw [hexp]
    simp [List.countP_append, warmupIter_count_put]
  · intro pcm hmem
    rw [hexp] at hmem
    simp only [List.mem_append, List.not_mem_nil, or_false] at hmem
    have hz : pcm = zeroFrame := by
      rcases hmem with h | h | h | h
      · exact warmupIter_encode_zero 0 (pe 0) (pd 0) pcm h
      · exact warmupIter_encode_zero 1 (pe 1) (pd 1) pcm h
      · exact warmupIter_encode_zero 2 (pe 2) (pd 2) pcm h
      · exact warmupIter_encode_zero 3 (pe 3) (pd 3) pcm h
    subst hz
    exact ⟨rfl, List.length_replicate 1920 0⟩
  · intro ms hmem
    rw [hexp] at hmem
    simp only [List.mem_append, List.not_mem_nil, or_false] at hmem
    rcases hmem with h | h | h | h
    · exact warmupIter_sleeps 0 (pe 0) (pd 0) ms h
    · exact warmupIter_sleeps 1 (pe 1) (pd 1) ms h
    · exact warmupIter_sleeps 2 (pe 2) (pd 2) ms h
    · exact warmupIter_sleeps 3 (pe 3) (pd 3) ms h
  · rw [hexp]
    simp [List.countP_append, warmupIter_count_get]

/-! ## Warmup channel accounting (`full_warmup` lines 76-94 with
`model_server` lines 146-158)

During warmup the engine consumes the 4 pushed priming frames in FIFO order;
for consumed frame `i` it emits a generated frame onto `server_to_client`
when `gen.last_audio_tokens()` is not `None` — an arbitrary sparse pattern
`e : List Bool` (zero-or-one emission per step, local.py lines 156-158).
`full_warmup` performs a blocking `server_to_client.get()` in iterations
1-3; at iteration `i` the engine has been handed inputs `0..i`, so while
warmup blocks the engine eventually emits `emittedCount e (i+1)` frames in
total, and the get returns exactly when that exceeds the frames already
consumed — otherwise both processes are blocked forever (the engine on an
empty `client_to_server`, warmup on an empty `server_to_client`). -/

/-- Number of frames the engine emits while processing the first `k` of the
priming inputs, for emission pattern `e`. -/
def emittedCount (e : List Bool) (k : Nat) : Nat :=
  (e.take k).countP (fun b => b)

/-- One iteration of `for i in range(4)` in `full_warmup`, tracking only the
number of frames taken from `server_to_client` so far (`none` = warmup is
deadlocked): iteration 0 `continue`s after its push; iteration `i ≥ 1`
blocks on `server_to_client.get()`, which succeeds iff the engine's
emissions over the `i+1` available inputs exceed the frames already
consumed. -/
def warmupChanStep (e : List Bool) (acc : Option Nat) (i : Nat) : Option Nat :=
  match acc with
  | none => none
  | some got =>
    if i = 0 then some got
    else if got + 1 ≤ emittedCount e (i + 1) then some (got + 1)
    else none

/-- The number of frames `full_warmup` consumes from `server_to_client`
(`none` if it deadlocks), for engine emission pattern `e`. -/
def warmupChanRun (e : List Bool) : Option Nat :=
  (List.range 4).foldl (warmupChanStep e) (some 0)

/-- The number of warmup-generated token frames still on (or still due to
arrive on) `server_to_client` after `full_warmup` returns: emissions from
the 4 priming inputs minus the frames warmup consumed. Every such leftover
frame is later drained by `recv_loop2` (lines 202-209), decoded, pushed to
`output_queue` by `recv_loop` (lines 186-192), encoded to Opus by
`another_loop`/`send_loop` (lines 263-282) and sent to the first external
client. -/
def warmupLeftover (e : List Bool) : Option Nat :=
  (warmupChanRun e).map (fun got => emittedCount e e.length - got)

/-- **C3 counterexample**: with the admissible emission pattern in which the
engine emits one generated frame at every priming step, warmup completes
(consuming 3 frames) yet one warmup-generated token frame is left on the
engine-to-client channel — so not every sparse emission pattern keeps
warmup output away from the first client, contrary to the claim. -/
theorem warmup_leak_counterexample :
    warmupChanRun [true, true, true, true] = some 3 ∧
    warmupLeftover [true, true, true, true] = some 1 ∧
    warmupLeftover [true, true, true, true] ≠ some 0 := by decide

/-- **C3 (amended)**: for every emission pattern over the 4 priming steps,
no warmup output can reach a client if and only if warmup completes having
consumed exactly the 3 frames it expects and the engine emitted exactly 3
frames; in general, whenever warmup completes, exactly
`emittedCount - 3` warmup frames remain for the first session to observe. -/
theorem warmup_leftover_char :
    ∀ (a b c d : Bool),
      (warmupLeftover [a, b, c, d] = some 0 ↔
        warmupChanRun [a, b, c, d] = some 3 ∧ emittedCount [a, b, c, d] 4 = 3) ∧
      ((warmupChanRun [a, b, c, d]).isSome →
        warmupLeftover [a, b, c, d] = some (emittedCount [a, b, c, d] 4 - 3)) := by
  decide

/-- Witness for `warmup_leftover_char` at the leak-free pattern in which the
first priming step emits nothing. -/
theorem warmup_leftover_char_witness :
    (warmupLeftover [false, true, true, true] = some 0 ↔
      warmupChanRun [false, true, true, true] = some 3
        ∧ emittedCount [false, true, true, true] 4 = 3) ∧
    ((warmupChanRun [false, true, true, true]).isSome →
      warmupLeftover [false, true, true, true]
        = some (emittedCount [false, true, true, true] 4 - 3)) :=
  warmup_leftover_char false true true true

/-! ## Startup ordering (`model_server` lines 119-158, `web_server` lines
163-175 and `go`)

`model_server` loads the text tokenizer and weights, runs `model.warmup()`,
then does `server_to_client.put("start")` once, then enters its loop which
only ever pushes token frames. `web_server` constructs the codec, then
blocks on `start = server_to_client.get()`, then runs `full_warmup`
(the first codec operations), and only then starts the websocket site. -/

/-- A message on the `server_to_client` channel: the readiness string
`"start"` (line 143) or a token frame (line 158). -/
inductive EngineMsg : Type
  | startMsg : EngineMsg
  | tokenFrame : List Nat → EngineMsg
deriving DecidableEq, Repr

/-- A top-level action of the `model_server` process. -/
inductive EngineAct : Type
  | loadTextTokenizer : EngineAct
  | loadWeights : EngineAct
  | warmupModel : EngineAct
  | putS2C : EngineMsg → EngineAct
deriving DecidableEq, Repr

/-- `model_server` start-up (lines 119-144): load the text tokenizer, load
the weights, `model.warmup()`, then `server_to_client.put("start")`. -/
def modelServerStartup : List EngineAct :=
  [EngineAct.loadTextTokenizer, EngineAct.loadWeights, EngineAct.warmupModel,
   EngineAct.putS2C EngineMsg.startMsg]

/-- The whole `model_server` action trace: the start-up followed by the
loop's pushes, which are all token frames (line 158). -/
def modelServerTrace (pushes : List (List Nat)) : List EngineAct :=
  modelServerStartup
    ++ pushes.map (fun f => EngineAct.putS2C (EngineMsg.tokenFrame f))

/-- The messages enqueued on `server_to_client`, in FIFO order. -/
def s2cPuts (t : List EngineAct) : List EngineMsg :=
  t.filterMap fun a =>
    match a with
    | EngineAct.putS2C m => some m
    | _ => none

/-- A top-level action of the `web_server` process before it serves
sessions. -/
inductive GatewayAct : Type
  | createTokenizer : GatewayAct
  | getStartMsg : EngineMsg → GatewayAct
  | warmAct : WAct → GatewayAct
  | acceptSessions : GatewayAct
deriving DecidableEq, Repr

/-- `web_server` start-up (lines 169-175 then `go`): construct the codec
(`rustymimi.StreamTokenizer`), block on one `server_to_client.get()`
(receiving `m`), run `full_warmup`, then start the websocket site. -/
def webServerStartup (pe pd : Nat → Nat) (m : EngineMsg) : List GatewayAct :=
  GatewayAct.createTokenizer :: GatewayAct.getStartMsg m
    :: ((fullWarmupTrace pe pd).map GatewayAct.warmAct
        ++ [GatewayAct.acceptSessions])

theorem s2cPuts_pushes (pushes : List (List Nat)) :
    s2cPuts (pushes.map fun f => EngineAct.putS2C (EngineMsg.tokenFrame f))
      = pushes.map EngineMsg.tokenFrame := by
  induction pushes with
  | nil => rfl
  | cons p rest ih =>
    simp only [List.map_cons, s2cPuts, List.filterMap_cons] at ih ⊢
    rw [ih]

theorem count_start_in_tokenFrames (pushes : List (List Nat)) :
    (pushes.map EngineMsg.tokenFrame).countP
      (fun m => decide (m = EngineMsg.startMsg)) = 0 := by
  rw [List.countP_eq_zero]
  intro m hm
  rcases List.mem_map.mp hm with ⟨f, _, rfl⟩
  simp

/-- **C10**: the engine enqueues the readiness message `"start"` exactly
once, after loading its weights and warming the model, and it is the very
first message on `server_to_client`; the gateway dequeues exactly one
message before anything else, and only after that dequeue does it perform
any codec operation (the warmup) and finally open the websocket endpoint —
so the FIFO get consumes precisely the readiness message and warmup's later
gets never see it. -/
theorem startup_readiness (pe pd : Nat → Nat) (pushes : List (List Nat)) :
    (s2cPuts (modelServerTrace pushes)).head? = some EngineMsg.startMsg ∧
    (s2cPuts (modelServerTrace pushes)).countP
      (fun m => decide (m = EngineMsg.startMsg)) = 1 ∧
    modelServerTrace pushes
      = EngineAct.loadTextTokenizer :: EngineAct.loadWeights
        :: EngineAct.warmupModel :: EngineAct.putS2C EngineMsg.startMsg
        :: pushes.map (fun f => EngineAct.putS2C (EngineMsg.tokenFrame f)) ∧
    webServerStartup pe pd EngineMsg.startMsg
      = GatewayAct.createTokenizer :: GatewayAct.getStartMsg EngineMsg.startMsg
        :: ((fullWarmupTrace pe pd).map GatewayAct.warmAct
            ++ [GatewayAct.acceptSessions]) ∧
    (∀ m', GatewayAct.getStartMsg m'
      ∉ ((fullWarmupTrace pe pd).map GatewayAct.warmAct
          ++ [GatewayAct.acceptSessions])) := by
  refine ⟨?_, ?_, rfl, rfl, ?_⟩
  · simp [modelServerTrace, modelServerStartup, s2cPuts, List.filterMap_cons]
  · simp [modelServerTrace, modelServerStartup, s2cPuts, List.filterMap_cons,
      List.countP_cons, s2cPuts_pushes, count_start_in_tokenFrames]
  · intro m' hmem
    rcases List.mem_append.mp hmem with h | h
    · rcases List.mem_map.mp h with ⟨a, _, ha⟩
      exact absurd ha (by simp)
    · simp at h

/-! ## Session lifecycle and lock (`handle_chat`, local.py lines 211-293)

`lock = asyncio.Lock()` (line 211) is process-wide. `handle_chat` runs
`async with lock:` (line 286) around the whole session: inside it the
server sends the single handshake byte `b'\x00'` (line 290), then runs the
four session tasks under `asyncio.gather` (line 291); `send_loop` sends
`b'\x01' + msg` frames only while streaming and only for non-empty `msg`
(lines 268-270). The lock is released when `gather` returns, i.e. after all
four tasks have exited. Connections are numbered; each connection's
lifecycle is `idle → locked → handshakeSent → streaming → closedPhase`. -/

/-- Lifecycle phase of one connection in `handle_chat`. -/
inductive Phase : Type
  | idle : Phase
  | locked : Phase
  | handshakeSent : Phase
  | streaming : Phase
  | closedPhase : Phase
deriving DecidableEq, Repr

/-- Gateway state: who holds `lock`, each connection's phase, and the
frames sent to each connection so far (in order). -/
structure GwState : Type where
  lockHolder : Option Nat
  phase : Nat → Phase
  sent : Nat → List (List Nat)

/-- Before any connection: lock free, nothing sent. -/
def gwInit : GwState := ⟨none, fun _ => Phase.idle, fun _ => []⟩

/-- The transitions of `handle_chat`: `acquire` is `async with lock:`
succeeding (only when the lock is free); `handshake` is
`await ws.send_bytes(b'\x00')` (line 290); `startTasks` is the
`asyncio.gather` of the four session tasks (line 291); `sendAudio` is
`send_loop` sending `b'\x01' + msg` for non-empty `msg` (line 270);
`finish` is `gather` returning after all four tasks exited, whereupon
`async with` releases the lock (line 291-292). -/
inductive GwStep : GwState → GwState → Prop
  | acquire (s : GwState) (c : Nat) :
      s.phase c = Phase.idle → s.lockHolder = none →
      GwStep s ⟨some c, fun x => if x = c then Phase.locked else s.phase x, s.sent⟩
  | handshake (s : GwState) (c : Nat) :
      s.phase c = Phase.locked →
      GwStep s ⟨s.lockHolder,
        fun x => if x = c then Phase.handshakeSent else s.phase x,
        fun x => if x = c then s.sent x ++ [[0]] else s.sent x⟩
  | startTasks (s : GwState) (c : Nat) :
      s.phase c = Phase.handshakeSent →
      GwStep s ⟨s.lockHolder,
        fun x => if x = c then Phase.streaming else s.phase x, s.sent⟩
  | sendAudio (s : GwState) (c : Nat) (msg : List Nat) :
      s.phase c = Phase.streaming → msg ≠ [] →
      GwStep s ⟨s.lockHolder, s.phase,
        fun x => if x = c then s.sent x ++ [1 :: msg] else s.sent x⟩
  | finish (s : GwState) (c : Nat) :
      s.phase c = Phase.streaming →
      GwStep s ⟨none,
        fun x => if x = c then Phase.closedPhase else s.phase x, s.sent⟩

/-- States reachable from start-up. -/
inductive GwReach : GwState → Prop
  | init : GwReach gwInit
  | step {s t : GwState} : GwReach s → GwStep s t → GwReach t

/-- A connection whose session is live: between lock acquisition and the
exit of all four tasks. -/
def activePhase (p : Phase) : Prop :=
  p = Phase.locked ∨ p = Phase.handshakeSent ∨ p = Phase.streaming

theorem gw_lock_inv {s : GwState} (hs : GwReach s) :
    ∀ c, activePhase (s.phase c) → s.lockHolder = some c := by
  induction hs with
  | init =>
    intro c hc
    rcases hc with h | h | h <;> simp [gwInit] at h
  | step hr hstep ih =>
    cases hstep with
    | acquire c hph hlock =>
      intro x hx
      simp only at hx ⊢
      by_cases hxc : x = c
      · subst hxc; rfl
      · rw [if_neg hxc] at hx
        have := ih x hx
        rw [hlock] at this
        exact absurd this (by simp)
    | handshake c hph =>
      intro x hx
      simp only at hx ⊢
      by_cases hxc : x = c
      · subst hxc
        exact ih x (Or.inl hph)
      · rw [if_neg hxc] at hx
        exact ih x hx
    | startTasks c hph =>
      intro x hx
      simp only at hx ⊢
      by_cases hxc : x = c
      · subst hxc
        exact ih x (Or.inr (Or.inl hph))
      · rw [if_neg hxc] at hx
        exact ih x hx
    | sendAudio c msg hph hmsg =>
      intro x hx
      exact ih x hx
    | finish c hph =>
      intro x hx
      simp only at hx ⊢
      by_cases hxc : x = c
      · subst hxc
        rw [if_pos rfl] at hx
        rcases hx with h | h | h <;> simp at h
      · rw [if_neg hxc] at hx
        have hx2 := ih x hx
        have hc2 := ih c (Or.inr (Or.inr hph))
        exact absurd (Option.some.inj (hx2.symm.trans hc2)) hxc

/-- **C1**: the session lock is held by every connection whose session is
live (from lock acquisition, through the handshake, until all four session
tasks have exited), so no two distinct connections are ever simultaneously
live — a second client blocks on `acquire` (which requires
`lockHolder = none`) until the first session finishes and releases. -/
theorem session_mutual_exclusion (s : GwState) (c c' : Nat) (hs : GwReach s) :
    (activePhase (s.phase c) → s.lockHolder = some c) ∧
    (activePhase (s.phase c) → s.lockHolder ≠ none) ∧
    (activePhase (s.phase c) → activePhase (s.phase c') → c = c') := by
  refine ⟨gw_lock_inv hs c, fun h => ?_, fun h h' => ?_⟩
  · rw [gw_lock_inv hs c h]
    simp
  · have h1 := gw_lock_inv hs c h
    have h2 := gw_lock_inv hs c' h'
    rw [h1] at h2
    exact Option.some.inj h2

/-- The state after connection 0 acquires the lock from start-up. -/
def gwAfterAcquire : GwState :=
  ⟨some 0, fun x => if x = 0 then Phase.locked else gwInit.phase x, gwInit.sent⟩

theorem gwAfterAcquire_reach : GwReach gwAfterAcquire :=
  GwReach.step GwReach.init (GwStep.acquire gwInit 0 rfl rfl)

/-- Witness for `session_mutual_exclusion` at the reachable state in which
connection 0 has just acquired the lock. -/
theorem session_mutual_exclusion_witness :
    (activePhase (gwAfterAcquire.phase 0) → gwAfterAcquire.lockHolder = some 0) ∧
    (activePhase (gwAfterAcquire.phase 0) → gwAfterAcquire.lockHolder ≠ none) ∧
    (activePhase (gwAfterAcquire.phase 0) → activePhase (gwAfterAcquire.phase 0)
      → 0 = 0) :=
  session_mutual_exclusion gwAfterAcquire 0 0 gwAfterAcquire_reach

/-- The shape invariant of a connection's send log, per phase: nothing is
sent before the handshake; afterwards the log is the handshake byte
followed only by `0x01`-tagged audio frames. -/
def sentInvPhase (p : Phase) (l : List (List Nat)) : Prop :=
  match p with
  | Phase.idle => l = []
  | Phase.locked => l = []
  | _ => ∃ rest, l = [0] :: rest ∧ ∀ g ∈ rest, ∃ m, g = 1 :: m

theorem gw_sent_inv {s : GwState} (hs : GwReach s) :
    ∀ c, sentInvPhase (s.phase c) (s.sent c) := by
  induction hs with
  | init =>
    intro c
    simp [gwInit, sentInvPhase]
  | step hr hstep ih =>
    cases hstep with
    | acquire c hph hlock =>
      intro x
      simp only
      by_cases hxc : x = c
      · subst hxc
        rw [if_pos rfl]
        have := ih x
        rw [hph] at this
        exact this
      · rw [if_neg hxc]
        exact ih x
    | handshake c hph =>
      intro x
      simp only
      by_cases hxc : x = c
      · subst hxc
        rw [if_pos rfl, if_pos rfl]
        have := ih x
        rw [hph] at this
        rw [this]
        exact ⟨[], rfl, by simp⟩
      · rw [if_neg hxc, if_neg hxc]
        exact ih x
    | startTasks c hph =>
      intro x
      simp only
      by_cases hxc : x = c
      · subst hxc
        rw [if_pos rfl]
        have := ih x
        rw [hph] at this
        exact this
      · rw [if_neg hxc]
        exact ih x
    | sendAudio c msg hph hmsg =>
      intro x
      simp only
      by_cases hxc : x = c
      · subst hxc
        rw [if_pos rfl]
        have := ih x
        rw [hph] at this
        rw [hph]
        rcases this with ⟨rest, hrest, hall⟩
        refine ⟨rest ++ [1 :: msg], by rw [hrest]; rfl, ?_⟩
        intro g hg
        rcases List.mem_append.mp hg with h | h
        · exact hall g h
        · rw [List.mem_singleton] at h
          exact ⟨msg, h⟩
      · rw [if_neg hxc]
        exact ih x
    | finish c hph =>
      intro x
      simp only
      by_cases hxc : x = c
      · subst hxc
        rw [if_pos rfl]
        have := ih x
        rw [hph] at this
        exact this
      · rw [if_neg hxc]
        exact ih x

/-- **C4**: on every connection, either nothing has been sent yet, or the
first frame ever sent is the single handshake byte `0x00` and every later
frame carries the leading byte `0x01` — so the handshake byte is sent
before any audio frame. -/
theorem handshake_before_audio (s : GwState) (c : Nat) (hs : GwReach s) :
    s.sent c = [] ∨
    ∃ rest, s.sent c = [0] :: rest ∧ ∀ g ∈ rest, ∃ m, g = 1 :: m := by
  have h := gw_sent_inv hs c
  cases hph : s.phase c <;> rw [hph] at h
  · exact Or.inl h
  · exact Or.inl h
  · exact Or.inr h
  · exact Or.inr h
  · exact Or.inr h

/-- The state after connection 0 acquires the lock and the server sends the
handshake byte. -/
def gwAfterHandshake : GwState :=
  ⟨gwAfterAcquire.lockHolder,
   fun x => if x = 0 then Phase.handshakeSent else gwAfterAcquire.phase x,
   fun x => if x = 0 then gwAfterAcquire.sent x ++ [[0]] else gwAfterAcquire.sent x⟩

theorem gwAfterHandshake_reach : GwReach gwAfterHandshake :=
  GwReach.step gwAfterAcquire_reach (GwStep.handshake gwAfterAcquire 0 rfl)

/-- Witness for `handshake_before_audio` at the reachable state in which
the handshake has just been sent on connection 0. -/
theorem handshake_before_audio_witness :
    gwAfterHandshake.sent 0 = [] ∨
    ∃ rest, gwAfterHandshake.sent 0 = [0] :: rest
      ∧ ∀ g ∈ rest, ∃ m, g = 1 :: m :=
  handshake_before_audio gwAfterHandshake 0 gwAfterHandshake_reach

/-! ## Concrete instances of the universally quantified theorems -/

/-- Witness for `opus_loop_framing` on a concrete stream: two reads of 1000
samples followed by one of 1000 makes one 1920-sample chunk with an
1080-sample remainder. -/
theorem opus_loop_framing_witness :
    (∀ c ∈ (opusRun [List.replicate 1000 (0 : Int), List.replicate 1000 0,
        List.replicate 1000 0]).2, c.length = FRAME_SIZE) ∧
    (opusRun [List.replicate 1000 (0 : Int), List.replicate 1000 0,
        List.replicate 1000 0]).2.flatten
      ++ accList (opusRun [List.replicate 1000 (0 : Int), List.replicate 1000 0,
        List.replicate 1000 0]).1
      = [List.replicate 1000 (0 : Int), List.replicate 1000 0,
        List.replicate 1000 0].flatten ∧
    (accList (opusRun [List.replicate 1000 (0 : Int), List.replicate 1000 0,
        List.replicate 1000 0]).1).length < FRAME_SIZE :=
  opus_loop_framing [List.replicate 1000 0, List.replicate 1000 0,
    List.replicate 1000 0]

/-- Witness for `frame_round_trip` at a concrete payload. -/
theorem frame_round_trip_witness :
    parseFrame (buildAudioFrame [5, 6, 7]) = some (1, [5, 6, 7]) :=
  frame_round_trip [5, 6, 7]

/-- Witness for `recv_loop_empty_binary` at a concrete open session state. -/
theorem recv_loop_empty_binary_witness :
    recvStep ⟨false, [9]⟩ (WsMsg.binary [])
        = some (⟨false, [9]⟩, [LogLevel.warning], false) ∧
    ∀ m : WsMsg, (recvStep ⟨false, [9]⟩ m).isSome :=
  recv_loop_empty_binary ⟨false, [9]⟩

/-- Witness for `full_warmup_behavior` at concrete poll latencies (codec
ready immediately for encoding, after one failed poll for decoding). -/
theorem full_warmup_behavior_witness :
    (fullWarmupTrace (fun _ => 0) (fun _ => 1)).countP isEncodeAct = 4 ∧
    (fullWarmupTrace (fun _ => 0) (fun _ => 1)).countP isPutC2SAct = 4 ∧
    (∀ pcm, WAct.encodePcm pcm ∈ fullWarmupTrace (fun _ => 0) (fun _ => 1) →
      pcm = List.replicate FRAME_SIZE 0 ∧ pcm.length = FRAME_SIZE) ∧
    (∀ ms, WAct.sleepMs ms ∈ fullWarmupTrace (fun _ => 0) (fun _ => 1) →
      ms = 10) ∧
    (fullWarmupTrace (fun _ => 0) (fun _ => 1)).countP isGetS2CAct = 3 ∧
    (∀ i a b, (warmupIterTrace i a b).countP isGetS2CAct
      = if i = 0 then 0 else 1) ∧
    (∀ i a b, encodedPolls (warmupIterTrace i a b)
      = List.replicate a false ++ [true]) ∧
    (∀ i a b, decodedPolls (warmupIterTrace i a b)
      = if i = 0 then [] else List.replicate b false ++ [true]) :=
  full_warmup_behavior (fun _ => 0) (fun _ => 1)

/-- Witness for `startup_readiness` at concrete poll latencies and a
concrete engine push stream. -/
theorem startup_readiness_witness :
    (s2cPuts (modelServerTrace [[4, 2]])).head? = some EngineMsg.startMsg ∧
    (s2cPuts (modelServerTrace [[4, 2]])).countP
      (fun m => decide (m = EngineMsg.startMsg)) = 1 ∧
    modelServerTrace [[4, 2]]
      = EngineAct.loadTextTokenizer :: EngineAct.loadWeights
        :: EngineAct.warmupModel :: EngineAct.putS2C EngineMsg.startMsg
        :: [[4, 2]].map (fun f => EngineAct.putS2C (EngineMsg.tokenFrame f)) ∧
    webServerStartup (fun _ => 0) (fun _ => 0) EngineMsg.startMsg
      = GatewayAct.createTokenizer :: GatewayAct.getStartMsg EngineMsg.startMsg
        :: ((fullWarmupTrace (fun _ => 0) (fun _ => 0)).map GatewayAct.warmAct
            ++ [GatewayAct.acceptSessions]) ∧
    (∀ m', GatewayAct.getStartMsg m'
      ∉ ((fullWarmupTrace (fun _ => 0) (fun _ => 0)).map GatewayAct.warmAct
          ++ [GatewayAct.acceptSessions])) :=
  startup_readiness (fun _ => 0) (fun _ => 0) [[4, 2]]

end Moshi
